import Mathlib

/-
  Verification of the autologin concurrent execution engine.

  The definitions below are a shallow embedding of the Python sources:
  - `detect_optimal_concurrency`    from src/autologin/workers/playwright_driver.py
  - `effectiveMaxConcurrent`        from ExecutorWorker.__init__ (executor_worker.py)
  - `run_broker_login`              from src/autologin/workers/broker_logins.py
  - `process_login`, `runJobs`, `run_concurrent_logins`, `runWorker`
                                    from ExecutorWorker (executor_worker.py)
  - the scheduler step relation (`Phase`, `SchedState`, `step`, `runTrace`)
    models the asyncio semaphore discipline of `process_login` as a small-step
    transition system, with instrumentation counters for acquired gate slots
    and created sessions.

  External effects (psutil readings, Playwright browser launch, the outcome of
  a broker's login flow) are inputs to the model; everything the executor does
  with them is translated faithfully from the source.
-/

namespace Autologin

/-! ## ConcurrencyPlanner: detect_optimal_concurrency (playwright_driver.py, lines 32-64)

Python reads `psutil.virtual_memory().available / 1024**3` as a float and the
cpu counts as `int | None`.  We model the available-GB reading as a rational
and the two cpu readings as `Option Nat`; `statsOk = false` models any
exception raised while reading system stats (the `except` branch).  `int(x)`
for the nonnegative `x = usable_memory / 0.5` equals the floor. -/

/-- Python truthiness fallback `a or b` where `a : int | None` is falsy
exactly when it is `None` or `0` (as in `psutil.cpu_count(...) or ...`). -/
def orCount (a : Option Nat) (b : Nat) : Nat :=
  match a with
  | some n => if n = 0 then b else n
  | none => b

/-- the chain `psutil.cpu_count(logical=False) or psutil.cpu_count() or 4`. -/
def cpuCountChain (cpuPhys cpuLog : Option Nat) : Nat :=
  orCount cpuPhys (orCount cpuLog 4)

/-- detect_optimal_concurrency: memory budget from available GB minus a 2GB
reserve at 0.5GB per worker, capped at the cpu count, clamped to [2, 15];
on any stats-reading failure, 4. -/
def detect_optimal_concurrency (statsOk : Bool) (availableGb : ℚ)
    (cpuPhys cpuLog : Option Nat) : Nat :=
  if statsOk then
    let usableMemory : ℚ := max 0 (availableGb - 2)
    let memoryBasedWorkers : Nat := (Int.floor (usableMemory / ((1 : ℚ) / 2))).toNat
    let cpuCount : Nat := cpuCountChain cpuPhys cpuLog
    let optimal : Nat := min memoryBasedWorkers cpuCount
    max 2 (min 15 optimal)
  else 4

/-- Modelled from the spec (§4.1): `clamp(raw, 2, 15)` applied to
`raw = min(floor(max(0, available_gb - 2) / 0.5), cpu_budget)`.  Used only to
compare the spec's formula with the source's computation. -/
def planSpec (availableGb : ℚ) (cpuBudget : Nat) : Nat :=
  max 2 (min 15 (min ((Int.floor (max 0 (availableGb - 2) / ((1 : ℚ) / 2))).toNat) cpuBudget))

/-! ## Effective concurrency (executor_worker.py, line 63)

`self.max_concurrent = max_concurrent or detect_optimal_concurrency()`:
a `None` or `0` override falls back to auto-detection, any nonzero override
is taken as is. -/

/-- the `max_concurrent or detect_optimal_concurrency()` truthiness choice. -/
def effectiveMaxConcurrent (maxConcurrent : Option Int) (auto : Nat) : Int :=
  match maxConcurrent with
  | none => (auto : Int)
  | some v => if v = 0 then (auto : Int) else v

/-! ## Data model for batch execution

An account is a dict in accounts.json; the executor reads and writes the keys
`client_id`, `status` and `last_login`.  Timestamps (`time.strftime(...)`) are
modelled as natural numbers.  A broker login function either returns a result
dict `{status: bool, message: str}` (`Except.ok`) or raises (`Except.error`),
carrying the fault's description `str(e)`. -/

structure Account where
  client_id : String
  status : String
  last_login : Option Nat
  deriving DecidableEq, Repr

structure LoginResult where
  status : Bool
  message : String
  deriving DecidableEq, Repr

/-- a per-broker login coroutine, abstracted over its network effects: given
the broker key and the account it returns a result dict or raises. -/
def Strategy : Type := String → Account → Except String LoginResult

/-- the keys of the BROKER_LOGIN_FUNCTIONS dict (broker_logins.py, lines
948-962). -/
def BROKER_LOGIN_KEYS : List String :=
  ["angel_one", "zerodha", "upstox", "sharekhan", "motilal", "nuvama",
   "jainamlite", "kotakneo", "fyers", "fivepaisa", "dhan", "firstock",
   "pocketful"]

/-- run_broker_login (broker_logins.py, lines 965-981): look up the broker in
the registry; a missing registration is the result dict
`{"status": False, "message": f"Unknown broker: {broker}"}` — returned, not
raised.  A registered broker's function is invoked. -/
def run_broker_login (strat : Strategy) (broker : String) (account : Account) :
    Except String LoginResult :=
  if BROKER_LOGIN_KEYS.contains broker then
    strat broker account
  else
    Except.ok { status := false, message := "Unknown broker: " ++ broker }

/-- a dict emitted on the `status` signal.  `status` and `do_refresh` are
`none` when the Python dict omits the key; `final_update` defaults to false
when omitted. -/
structure StatusEvent where
  status : Option Bool
  message : String
  do_refresh : Option Bool
  final_update : Bool
  deriving DecidableEq, Repr

/-- one entry of `login_tasks` together with its scheduling environment:
`stopAtCheck` is the value of `self._stop_requested` the moment this job's
`process_login` runs its guard (line 173), and `finishTime` is the wall clock
`time.strftime` reading when the job's result is folded in. -/
structure JobSpec where
  broker : String
  account : Account
  stopAtCheck : Bool
  finishTime : Nat
  deriving DecidableEq, Repr

/-- the three terminal states a job can reach. -/
inductive Outcome
  | Succeeded
  | Failed
  | Cancelled
  deriving DecidableEq, Repr

/-- what one `process_login` call produced: the account object before and
after the in-place mutation, the terminal outcome, the id of the browser
context created for the job (none when the job short-circuited), and the
returned result dict. -/
structure JobRecord where
  broker : String
  initialAccount : Account
  finalAccount : Account
  outcome : Outcome
  sessionId : Option Nat
  result : LoginResult
  deriving DecidableEq, Repr

/-- the shared state of `_run_concurrent_logins` threaded through the jobs:
the nonlocal counters, the ids of contexts created and closed so far (fresh
ids model `driver.new_context()` returning a new BrowserContext instance),
and the events emitted so far. -/
structure ExecState where
  completed : Nat
  successful : Nat
  failed : Nat
  nextSessionId : Nat
  sessionsCreated : List Nat
  sessionsClosed : List Nat
  statusEvents : List StatusEvent
  progressEvents : List (Nat × Nat)
  deriving DecidableEq, Repr

def initExec : ExecState :=
  { completed := 0, successful := 0, failed := 0, nextSessionId := 0,
    sessionsCreated := [], sessionsClosed := [], statusEvents := [],
    progressEvents := [] }

/-- the `finally` block of `process_login` (lines 208-216): close the context
if one was created, bump `completed`, emit a progress event. -/
def finallyBlock (total : Nat) (sid : Nat) (s : ExecState) : ExecState :=
  { s with
    sessionsClosed := s.sessionsClosed ++ [sid],
    completed := s.completed + 1,
    progressEvents := s.progressEvents ++ [(s.completed + 1, total)] }

/-- process_login (executor_worker.py, lines 169-216) for one job:
check `_stop_requested` and return early (no counters touched, no session, no
event); otherwise create a context, run the broker login, fold the result
into the account and counters, emit the per-job status event on the normal
path only, and run the `finally` block. -/
def process_login (strat : Strategy) (total : Nat) (s : ExecState) (j : JobSpec) :
    ExecState × JobRecord :=
  if j.stopAtCheck then
    (s, { broker := j.broker, initialAccount := j.account, finalAccount := j.account,
          outcome := Outcome.Cancelled, sessionId := none,
          result := { status := false, message := "Stopped by user" } })
  else
    let sid := s.nextSessionId
    let s1 := { s with nextSessionId := s.nextSessionId + 1,
                       sessionsCreated := s.sessionsCreated ++ [sid] }
    match run_broker_login strat j.broker j.account with
    | Except.ok r =>
        let acc :=
          if r.status then
            { j.account with status := "Logged In", last_login := some j.finishTime }
          else
            { j.account with status := "Login Failed" }
        let s2 :=
          if r.status then { s1 with successful := s1.successful + 1 }
          else { s1 with failed := s1.failed + 1 }
        let s3 := { s2 with statusEvents := s2.statusEvents ++
                      [{ status := some r.status,
                         message := j.account.client_id ++ ": " ++ r.message,
                         do_refresh := some r.status, final_update := false }] }
        (finallyBlock total sid s3,
         { broker := j.broker, initialAccount := j.account, finalAccount := acc,
           outcome := if r.status then Outcome.Succeeded else Outcome.Failed,
           sessionId := some sid, result := r })
    | Except.error e =>
        let acc := { j.account with status := "Login Failed" }
        let s2 := { s1 with failed := s1.failed + 1 }
        (finallyBlock total sid s2,
         { broker := j.broker, initialAccount := j.account, finalAccount := acc,
           outcome := Outcome.Failed, sessionId := some sid,
           result := { status := false, message := e } })

/-- the cooperative driver folding every job's `process_login` into the
shared state.  Under asyncio's single-threaded semantics each counter update
and list append is atomic between suspension points, so the final state and
the per-job records are independent of the interleaving; the fold serialises
them in submission order. -/
def runJobs (strat : Strategy) (total : Nat) :
    ExecState → List JobSpec → ExecState × List JobRecord
  | s, [] => (s, [])
  | s, j :: rest =>
      let p := process_login strat total s j
      let q := runJobs strat total p.1 rest
      (q.1, p.2 :: q.2)

/-- everything a batch run produced, observable from outside the worker. -/
structure BatchResult where
  records : List JobRecord
  events : List StatusEvent
  progressEvents : List (Nat × Nat)
  sessionsCreated : List Nat
  sessionsClosed : List Nat
  persisted : List (List Account)
  deriving Repr

/-- the startup event (lines 154-158). -/
def startingEvent (total maxConc : Nat) : StatusEvent :=
  { status := some true,
    message := "Starting login for " ++ toString total ++ " accounts with "
      ++ toString maxConc ++ " concurrent workers",
    do_refresh := some false, final_update := false }

/-- the end-of-batch summary event (lines 235-239). -/
def finalEvent (successful failed total : Nat) : StatusEvent :=
  { status := none,
    message := "Completed: " ++ toString successful ++ " successful, "
      ++ toString failed ++ " failed out of " ++ toString total ++ " accounts",
    do_refresh := some true, final_update := true }

/-- the early-return event when no accounts need processing (lines 147-152). -/
def emptyBatchEvent : StatusEvent :=
  { status := none, message := "All accounts already logged in",
    do_refresh := none, final_update := true }

/-- the accounts written back to accounts.json for the processed jobs: each
job's dict as mutated in place (accounts outside `login_tasks` are written
back unchanged and are not modelled). -/
def ledgerOf (records : List JobRecord) : List Account :=
  records.map (fun r => r.finalAccount)

/-- _run_concurrent_logins (lines 101-239) from the point `login_tasks` is
built.  `driverLaunch = some e` models `PlaywrightDriver.start()` raising
with message `e` at the `async with` entry (playwright_driver.py, lines
85-120): the exception propagates, so no task runs, nothing is saved and no
final event is emitted; the escaped exception message is returned alongside
the partial result.  `driverLaunch = none` models a successful launch: all
jobs run, the updated accounts are dumped to disk once, and the summary event
is emitted. -/
def run_concurrent_logins (strat : Strategy) (driverLaunch : Option String)
    (maxConc : Nat) (jobs : List JobSpec) : BatchResult × Option String :=
  if jobs.length = 0 then
    ({ records := [], events := [emptyBatchEvent], progressEvents := [],
       sessionsCreated := [], sessionsClosed := [], persisted := [] }, none)
  else
    let total := jobs.length
    let startEv := startingEvent total maxConc
    match driverLaunch with
    | some e =>
        ({ records := [], events := [startEv], progressEvents := [],
           sessionsCreated := [], sessionsClosed := [], persisted := [] }, some e)
    | none =>
        let run := runJobs strat total { initExec with statusEvents := [startEv] } jobs
        ({ records := run.2,
           events := run.1.statusEvents ++ [finalEvent run.1.successful run.1.failed total],
           progressEvents := run.1.progressEvents,
           sessionsCreated := run.1.sessionsCreated,
           sessionsClosed := run.1.sessionsClosed,
           persisted := [ledgerOf run.2] }, none)

/-- ExecutorWorker.run (lines 79-99): any exception escaping
`_run_concurrent_logins` is caught and reported as a single
`Executor error: ...` status event. -/
def runWorker (strat : Strategy) (driverLaunch : Option String)
    (maxConc : Nat) (jobs : List JobSpec) : BatchResult :=
  let p := run_concurrent_logins strat driverLaunch maxConc jobs
  match p.2 with
  | none => p.1
  | some e =>
      { p.1 with events := p.1.events ++
          [{ status := some false, message := "Executor error: " ++ e,
             do_refresh := some false, final_update := false }] }

/-- count of records with a given terminal outcome. -/
def countOutcome (o : Outcome) (records : List JobRecord) : Nat :=
  records.countP (fun r => r.outcome == o)

/-! ## Small-step model of the semaphore discipline

`process_login` (executor_worker.py, lines 169-216) interleaves with the
other jobs of the batch only at `await` points.  The transition system below
models exactly its suspension structure: the `_stop_requested` guard at entry
(line 173), `async with semaphore` (line 176, blocking until fewer than
`gate` holders), `driver.new_context()` (line 179, the browser context
becoming open), `context.close()` in the `finally` (line 211), and the
semaphore release when the `async with` block exits.  Each job carries
instrumentation counters for how many gate slots it ever acquired and how
many contexts it ever created, as the spec's testable properties ask for
instrumented counting. -/

inductive Phase
  | pending
  | cancelled
  | waiting
  | acquired
  | sessionOpen
  | sessionClosed
  | finished
  deriving DecidableEq, Repr

structure SchedJob where
  phase : Phase
  slotsTaken : Nat
  sessionsOpened : Nat
  deriving DecidableEq, Repr

def initJob : SchedJob :=
  { phase := Phase.pending, slotsTaken := 0, sessionsOpened := 0 }

structure SchedState where
  cancelRequested : Bool
  jobs : List SchedJob
  deriving DecidableEq, Repr

/-- phases during which the job holds a slot of the semaphore. -/
def holdsSlot (p : Phase) : Bool :=
  match p with
  | Phase.acquired => true
  | Phase.sessionOpen => true
  | Phase.sessionClosed => true
  | _ => false

def sessionIsOpen (p : Phase) : Bool :=
  match p with
  | Phase.sessionOpen => true
  | _ => false

/-- number of jobs currently holding a semaphore slot. -/
def activeCount (s : SchedState) : Nat :=
  s.jobs.countP (fun j => holdsSlot j.phase)

/-- number of jobs currently holding an open browser context. -/
def openSessionCount (s : SchedState) : Nat :=
  s.jobs.countP (fun j => sessionIsOpen j.phase)

/-- the events at which a job's coroutine can resume, plus the GUI thread
setting `_stop_requested` (request_stop, line 67). -/
inductive Act
  | requestStop
  | checkStop (i : Nat)
  | acquireGate (i : Nat)
  | openSession (i : Nat)
  | closeSession (i : Nat)
  | releaseGate (i : Nat)
  deriving DecidableEq, Repr

/-- one scheduler step; `none` when the event is not enabled in `s`. -/
def step (gate : Nat) (s : SchedState) : Act → Option SchedState
  | Act.requestStop => some { s with cancelRequested := true }
  | Act.checkStop i =>
      match s.jobs[i]? with
      | some j =>
          if j.phase = Phase.pending then
            let p := if s.cancelRequested then Phase.cancelled else Phase.waiting
            some { s with jobs := s.jobs.set i ({ j with phase := p }) }
          else none
      | none => none
  | Act.acquireGate i =>
      match s.jobs[i]? with
      | some j =>
          if j.phase = Phase.waiting ∧ activeCount s < gate then
            let j' := { j with phase := Phase.acquired, slotsTaken := j.slotsTaken + 1 }
            some { s with jobs := s.jobs.set i j' }
          else none
      | none => none
  | Act.openSession i =>
      match s.jobs[i]? with
      | some j =>
          if j.phase = Phase.acquired then
            let j' := { j with phase := Phase.sessionOpen,
                               sessionsOpened := j.sessionsOpened + 1 }
            some { s with jobs := s.jobs.set i j' }
          else none
      | none => none
  | Act.closeSession i =>
      match s.jobs[i]? with
      | some j =>
          if j.phase = Phase.sessionOpen then
            some { s with jobs := s.jobs.set i ({ j with phase := Phase.sessionClosed }) }
          else none
      | none => none
  | Act.releaseGate i =>
      match s.jobs[i]? with
      | some j =>
          if j.phase = Phase.sessionClosed then
            some { s with jobs := s.jobs.set i ({ j with phase := Phase.finished }) }
          else none
      | none => none

/-- run a sequence of scheduler events; `none` if any event is not enabled. -/
def runTrace (gate : Nat) (s : SchedState) : List Act → Option SchedState
  | [] => some s
  | a :: rest =>
      match step gate s a with
      | some s' => runTrace gate s' rest
      | none => none

/-! ## Derived per-job views

`jobFate` is what `process_login` decides for one job as a pure function of
the job's own inputs; it exists so that theorems can say that a job's
outcome, returned result dict and account mutation do not depend on the rest
of the batch. -/

/-- the per-job observables of a record. -/
def recordFate (rc : JobRecord) : Outcome × LoginResult × Account × Account :=
  (rc.outcome, rc.result, rc.initialAccount, rc.finalAccount)

/-- a job ran (was not short-circuited by the `_stop_requested` guard). -/
def ranJob (j : JobSpec) : Bool := !j.stopAtCheck

/-- outcome, result dict, initial and final account of a job, as a function
of the job alone (read off the branches of `process_login`). -/
def jobFate (strat : Strategy) (j : JobSpec) :
    Outcome × LoginResult × Account × Account :=
  if j.stopAtCheck then
    (Outcome.Cancelled, { status := false, message := "Stopped by user" },
     j.account, j.account)
  else
    match run_broker_login strat j.broker j.account with
    | Except.ok r =>
        if r.status then
          (Outcome.Succeeded, r, j.account,
           { j.account with status := "Logged In", last_login := some j.finishTime })
        else
          (Outcome.Failed, r, j.account,
           { j.account with status := "Login Failed" })
    | Except.error e =>
        (Outcome.Failed, { status := false, message := e }, j.account,
         { j.account with status := "Login Failed" })

/-- the per-job status event a job causes, if any: nothing for a
short-circuited job, the emit of lines 194-198 when the broker function
returned a dict, nothing on the exception path (the `except` branch of
`process_login` returns without emitting a status event). -/
def eventOf (strat : Strategy) (j : JobSpec) : Option StatusEvent :=
  if j.stopAtCheck then none
  else
    match run_broker_login strat j.broker j.account with
    | Except.ok r =>
        some { status := some r.status,
               message := j.account.client_id ++ ": " ++ r.message,
               do_refresh := some r.status, final_update := false }
    | Except.error _ => none

/-- substring test on character lists, used to state that a message does not
mention a word. -/
def hasSubstrAux (pat : List Char) : List Char → Bool
  | [] => pat.isEmpty
  | c :: rest => pat.isPrefixOf (c :: rest) || hasSubstrAux pat rest

/-- substring test on strings. -/
def hasSubstr (pat s : String) : Bool := hasSubstrAux pat.toList s.toList

/-! ## Concrete fixtures used by witnesses and counterexamples -/

def acctA : Account := { client_id := "CA", status := "Logged Out", last_login := none }

def acctB : Account := { client_id := "CB", status := "Logged Out", last_login := none }

def acctC : Account := { client_id := "CC", status := "Logged Out", last_login := none }

/-- a strategy whose login flow always reports success. -/
def stratConstOk : Strategy :=
  fun _ _ => Except.ok { status := true, message := "Login successful" }

/-- a strategy that raises for account CA and succeeds for every other. -/
def stratFaultA : Strategy :=
  fun _ a =>
    if a.client_id = "CA" then Except.error "boom"
    else Except.ok { status := true, message := "Login successful" }

/-- one job whose checkpoint observes a stop request. -/
def jobsOneCancelled : List JobSpec :=
  [{ broker := "zerodha", account := acctA, stopAtCheck := true, finishTime := 5 }]

/-- three jobs, the middle one referencing an unregistered broker id. -/
def jobsC3 : List JobSpec :=
  [{ broker := "zerodha", account := acctA, stopAtCheck := false, finishTime := 1 },
   { broker := "nobroker", account := acctB, stopAtCheck := false, finishTime := 2 },
   { broker := "upstox", account := acctC, stopAtCheck := false, finishTime := 3 }]

/-- two jobs on a registered broker; with `stratFaultA` the first faults. -/
def jobsC7 : List JobSpec :=
  [{ broker := "zerodha", account := acctA, stopAtCheck := false, finishTime := 1 },
   { broker := "zerodha", account := acctB, stopAtCheck := false, finishTime := 2 }]

/-- the batch's initial state: all tasks created, none yet resumed. -/
def initSched (n : Nat) : SchedState :=
  { cancelRequested := false, jobs := List.replicate n initJob }

/-- the initial state when `request_stop` already ran before the batch
started processing jobs. -/
def initCancelled (n : Nat) : SchedState :=
  { cancelRequested := true, jobs := List.replicate n initJob }

/-! ## Helper lemmas about one `process_login` call -/

theorem process_login_spec (strat : Strategy) (total : Nat) (s : ExecState) (j : JobSpec) :
    recordFate (process_login strat total s j).2 = jobFate strat j ∧
    (process_login strat total s j).2.sessionId
      = (if ranJob j then some s.nextSessionId else none) ∧
    (process_login strat total s j).1.nextSessionId
      = s.nextSessionId + (if ranJob j then 1 else 0) ∧
    (process_login strat total s j).1.sessionsCreated
      = s.sessionsCreated ++ (if ranJob j then [s.nextSessionId] else []) ∧
    (process_login strat total s j).1.sessionsClosed
      = s.sessionsClosed ++ (if ranJob j then [s.nextSessionId] else []) ∧
    (process_login strat total s j).1.successful
      = s.successful
        + (if (process_login strat total s j).2.outcome == Outcome.Succeeded then 1 else 0) ∧
    (process_login strat total s j).1.failed
      = s.failed
        + (if (process_login strat total s j).2.outcome == Outcome.Failed then 1 else 0) ∧
    (process_login strat total s j).1.statusEvents
      = s.statusEvents ++ (eventOf strat j).toList ∧
    (process_login strat total s j).1.progressEvents.length
      = s.progressEvents.length + (if ranJob j then 1 else 0) := by
  by_cases hstop : j.stopAtCheck
  · simp [process_login, jobFate, recordFate, eventOf, ranJob, hstop]
  · cases hrun : run_broker_login strat j.broker j.account with
    | ok r =>
        cases hr : r.status <;>
          simp [process_login, jobFate, recordFate, eventOf, ranJob, finallyBlock,
                hstop, hrun, hr]
    | error e =>
        simp [process_login, jobFate, recordFate, eventOf, ranJob, finallyBlock,
              hstop, hrun]

/-! ## Helper lemmas about the whole fold -/

theorem runJobs_fates (strat : Strategy) (total : Nat) (jobs : List JobSpec) :
    ∀ s : ExecState,
      (runJobs strat total s jobs).2.map recordFate = jobs.map (jobFate strat) := by
  induction jobs with
  | nil => intro s; rfl
  | cons j rest ih =>
      intro s
      have h := (process_login_spec strat total s j).1
      simp [runJobs, ih, h]

theorem runJobs_length (strat : Strategy) (total : Nat) (jobs : List JobSpec)
    (s : ExecState) : (runJobs strat total s jobs).2.length = jobs.length := by
  have h := congrArg List.length (runJobs_fates strat total jobs s)
  simpa using h

theorem runJobs_successful (strat : Strategy) (total : Nat) (jobs : List JobSpec) :
    ∀ s : ExecState,
      (runJobs strat total s jobs).1.successful
        = s.successful + countOutcome Outcome.Succeeded (runJobs strat total s jobs).2 := by
  induction jobs with
  | nil => intro s; simp [runJobs, countOutcome]
  | cons j rest ih =>
      intro s
      have h := (process_login_spec strat total s j).2.2.2.2.2.1
      simp only [runJobs, countOutcome, List.countP_cons] at *
      rw [ih, h]
      omega

theorem runJobs_failed (strat : Strategy) (total : Nat) (jobs : List JobSpec) :
    ∀ s : ExecState,
      (runJobs strat total s jobs).1.failed
        = s.failed + countOutcome Outcome.Failed (runJobs strat total s jobs).2 := by
  induction jobs with
  | nil => intro s; simp [runJobs, countOutcome]
  | cons j rest ih =>
      intro s
      have h := (process_login_spec strat total s j).2.2.2.2.2.2.1
      simp only [runJobs, countOutcome, List.countP_cons] at *
      rw [ih, h]
      omega

theorem runJobs_session_ids (strat : Strategy) (total : Nat) (jobs : List JobSpec) :
    ∀ s : ExecState,
      (runJobs strat total s jobs).2.filterMap JobRecord.sessionId
        = List.range' s.nextSessionId (jobs.countP ranJob) ∧
      (runJobs strat total s jobs).1.nextSessionId
        = s.nextSessionId + jobs.countP ranJob ∧
      (runJobs strat total s jobs).1.sessionsCreated
        = s.sessionsCreated ++ List.range' s.nextSessionId (jobs.countP ranJob) ∧
      (runJobs strat total s jobs).1.sessionsClosed
        = s.sessionsClosed ++ List.range' s.nextSessionId (jobs.countP ranJob) := by
  induction jobs with
  | nil => intro s; simp [runJobs]
  | cons j rest ih =>
      intro s
      obtain ⟨-, hsid, hnext, hcreated, hclosed, -⟩ := process_login_spec strat total s j
      have ihh := ih (process_login strat total s j).1
      cases hran : ranJob j with
      | false =>
          simp only [hran] at hsid hnext hcreated hclosed
          simp only [Bool.false_eq_true, if_false, List.append_nil, Nat.add_zero]
            at hsid hnext hcreated hclosed
          rw [hnext, hcreated, hclosed] at ihh
          simp [runJobs, List.filterMap_cons, hsid, List.countP_cons, hran,
            ihh.1, ihh.2.1, ihh.2.2.1, ihh.2.2.2]
      | true =>
          simp only [hran, if_true] at hsid hnext hcreated hclosed
          rw [hnext, hcreated, hclosed] at ihh
          have hr : List.range' s.nextSessionId (List.countP ranJob rest + 1)
              = s.nextSessionId :: List.range' (s.nextSessionId + 1) (List.countP ranJob rest) :=
            List.range'_succ _ _ _
          simp [runJobs, List.filterMap_cons, hsid, List.countP_cons, hran,
            ihh.1, ihh.2.1, ihh.2.2.1, ihh.2.2.2, hr]
          omega

theorem runJobs_events (strat : Strategy) (total : Nat) (jobs : List JobSpec) :
    ∀ s : ExecState,
      (runJobs strat total s jobs).1.statusEvents
        = s.statusEvents ++ jobs.filterMap (eventOf strat) := by
  induction jobs with
  | nil => intro s; simp [runJobs]
  | cons j rest ih =>
      intro s
      have h := (process_login_spec strat total s j).2.2.2.2.2.2.2.1
      cases heo : eventOf strat j <;>
        simp only [heo, Option.toList, List.append_nil] at h <;>
        simp [runJobs, ih, h, List.filterMap_cons, heo]

theorem runJobs_progress_length (strat : Strategy) (total : Nat) (jobs : List JobSpec) :
    ∀ s : ExecState,
      (runJobs strat total s jobs).1.progressEvents.length
        = s.progressEvents.length + jobs.countP ranJob := by
  induction jobs with
  | nil => intro s; simp [runJobs]
  | cons j rest ih =>
      intro s
      have h := (process_login_spec strat total s j).2.2.2.2.2.2.2.2
      simp only [runJobs, ih, h, List.countP_cons]
      cases hran : ranJob j <;> simp [hran] <;> omega

theorem runJobs_session_flags (strat : Strategy) (total : Nat) (jobs : List JobSpec) :
    ∀ s : ExecState,
      (runJobs strat total s jobs).2.map (fun rc => rc.sessionId.isSome)
        = jobs.map ranJob := by
  induction jobs with
  | nil => intro s; rfl
  | cons j rest ih =>
      intro s
      have h := (process_login_spec strat total s j).2.1
      cases hran : ranJob j <;>
        simp [runJobs, ih, h, hran]

/-! ## Claim C5: the ConcurrencyPlanner -/

/-- C5: `detect_optimal_concurrency` computes the spec's formula — the
memory budget `floor(max(0, available_gb - 2) / 0.5)` capped at the cpu
budget then clamped to [2, 15] — returns 4 on any stats-reading failure,
always lands in [2, 15], returns exactly 2 when at most 2GB are available,
and exactly 15 for high memory (at least 9.5GB available) and at least 15
cores. -/
theorem concurrency_planner_plan (g : ℚ) (p l : Option Nat) :
    detect_optimal_concurrency true g p l = planSpec g (cpuCountChain p l) ∧
    detect_optimal_concurrency false g p l = 4 ∧
    2 ≤ detect_optimal_concurrency true g p l ∧
    detect_optimal_concurrency true g p l ≤ 15 ∧
    (g ≤ 2 → detect_optimal_concurrency true g p l = 2) ∧
    (19 / 2 ≤ g → 15 ≤ cpuCountChain p l →
      detect_optimal_concurrency true g p l = 15) := by
  refine ⟨rfl, rfl, ?_, ?_, ?_, ?_⟩
  · simp only [detect_optimal_concurrency, if_true]
    omega
  · simp only [detect_optimal_concurrency, if_true]
    omega
  · intro h
    have hm : max 0 (g - 2) = 0 := max_eq_left (by linarith)
    simp only [detect_optimal_concurrency, if_true, hm, zero_div, Int.floor_zero,
      Int.toNat_zero]
    omega
  · intro hg hc
    have hm : max 0 (g - 2) = g - 2 := max_eq_right (by linarith)
    have hdiv : (g - 2) / ((1 : ℚ) / 2) = 2 * (g - 2) := by ring
    have hfl : (15 : ℤ) ≤ Int.floor ((g - 2) / ((1 : ℚ) / 2)) := by
      rw [hdiv]
      refine Int.le_floor.mpr ?_
      push_cast
      linarith
    have h15 : 15 ≤ (Int.floor ((g - 2) / ((1 : ℚ) / 2))).toNat := by omega
    simp only [detect_optimal_concurrency, if_true, hm]
    omega

/-- C5 witness: at 1GB available the planner returns the floor 2; at 100GB
and 64 physical cores it returns the ceiling 15. -/
theorem concurrency_planner_plan_witness :
    detect_optimal_concurrency true 1 (some 8) none = 2 ∧
    detect_optimal_concurrency true 100 (some 64) none = 15 :=
  ⟨(concurrency_planner_plan 1 (some 8) none).2.2.2.2.1 (by norm_num),
   (concurrency_planner_plan 100 (some 64) none).2.2.2.2.2 (by norm_num) (by decide)⟩

/-! ## Claim C10: concurrency override -/

/-- C10: the worker's effective concurrency is the auto-detected budget when
the override is `None` or `0`, and the override itself whenever it is
nonzero. -/
theorem concurrency_override_semantics (statsOk : Bool) (g : ℚ)
    (p l : Option Nat) (v : Int) :
    effectiveMaxConcurrent none (detect_optimal_concurrency statsOk g p l)
      = detect_optimal_concurrency statsOk g p l ∧
    effectiveMaxConcurrent (some 0) (detect_optimal_concurrency statsOk g p l)
      = detect_optimal_concurrency statsOk g p l ∧
    (v ≠ 0 →
      effectiveMaxConcurrent (some v) (detect_optimal_concurrency statsOk g p l) = v) := by
  refine ⟨rfl, rfl, fun hv => ?_⟩
  simp [effectiveMaxConcurrent, hv]

/-- C10 witness: override 7 is honored over an auto-detected budget of 8. -/
theorem concurrency_override_semantics_witness :
    detect_optimal_concurrency true 16 (some 8) none = 8 ∧
    effectiveMaxConcurrent (some 7) (detect_optimal_concurrency true 16 (some 8) none) = 7 :=
  ⟨by simp only [detect_optimal_concurrency, cpuCountChain, orCount, if_true]
      norm_num,
   (concurrency_override_semantics true 16 (some 8) none 7).2.2 (by decide)⟩

/-! ## Projections of a successfully launched batch -/

/-- the fold state and records of a batch whose driver launched. -/
def batchRun (strat : Strategy) (maxConc : Nat) (jobs : List JobSpec) :
    ExecState × List JobRecord :=
  runJobs strat jobs.length
    ({ initExec with statusEvents := [startingEvent jobs.length maxConc] }) jobs

theorem runWorker_records (strat : Strategy) (maxConc : Nat) (jobs : List JobSpec)
    (hne : jobs ≠ []) :
    (runWorker strat none maxConc jobs).records = (batchRun strat maxConc jobs).2 := by
  have hlen : ¬ jobs.length = 0 := fun h => hne (List.length_eq_zero.mp h)
  simp [runWorker, run_concurrent_logins, batchRun, hlen]

theorem runWorker_events (strat : Strategy) (maxConc : Nat) (jobs : List JobSpec)
    (hne : jobs ≠ []) :
    (runWorker strat none maxConc jobs).events
      = (batchRun strat maxConc jobs).1.statusEvents
        ++ [finalEvent (batchRun strat maxConc jobs).1.successful
              (batchRun strat maxConc jobs).1.failed jobs.length] := by
  have hlen : ¬ jobs.length = 0 := fun h => hne (List.length_eq_zero.mp h)
  simp [runWorker, run_concurrent_logins, batchRun, hlen]

theorem runWorker_progress (strat : Strategy) (maxConc : Nat) (jobs : List JobSpec)
    (hne : jobs ≠ []) :
    (runWorker strat none maxConc jobs).progressEvents
      = (batchRun strat maxConc jobs).1.progressEvents := by
  have hlen : ¬ jobs.length = 0 := fun h => hne (List.length_eq_zero.mp h)
  simp [runWorker, run_concurrent_logins, batchRun, hlen]

theorem runWorker_sessions (strat : Strategy) (maxConc : Nat) (jobs : List JobSpec)
    (hne : jobs ≠ []) :
    (runWorker strat none maxConc jobs).sessionsCreated
      = (batchRun strat maxConc jobs).1.sessionsCreated ∧
    (runWorker strat none maxConc jobs).sessionsClosed
      = (batchRun strat maxConc jobs).1.sessionsClosed := by
  have hlen : ¬ jobs.length = 0 := fun h => hne (List.length_eq_zero.mp h)
  constructor <;> simp [runWorker, run_concurrent_logins, batchRun, hlen]

theorem runWorker_persisted (strat : Strategy) (maxConc : Nat) (jobs : List JobSpec)
    (hne : jobs ≠ []) :
    (runWorker strat none maxConc jobs).persisted
      = [ledgerOf (batchRun strat maxConc jobs).2] := by
  have hlen : ¬ jobs.length = 0 := fun h => hne (List.length_eq_zero.mp h)
  simp [runWorker, run_concurrent_logins, batchRun, hlen]

theorem batchRun_successful (strat : Strategy) (maxConc : Nat) (jobs : List JobSpec) :
    (batchRun strat maxConc jobs).1.successful
      = countOutcome Outcome.Succeeded (batchRun strat maxConc jobs).2 := by
  have h := runJobs_successful strat jobs.length jobs
    ({ initExec with statusEvents := [startingEvent jobs.length maxConc] })
  simpa [batchRun, initExec] using h

theorem batchRun_failed (strat : Strategy) (maxConc : Nat) (jobs : List JobSpec) :
    (batchRun strat maxConc jobs).1.failed
      = countOutcome Outcome.Failed (batchRun strat maxConc jobs).2 := by
  have h := runJobs_failed strat jobs.length jobs
    ({ initExec with statusEvents := [startingEvent jobs.length maxConc] })
  simpa [batchRun, initExec] using h

/-- each record carries exactly one of the three terminal outcomes, so the
three outcome counts always partition the records. -/
theorem countOutcome_partition (records : List JobRecord) :
    countOutcome Outcome.Succeeded records + countOutcome Outcome.Failed records
      + countOutcome Outcome.Cancelled records = records.length := by
  induction records with
  | nil => rfl
  | cons rc rest ih =>
      simp only [countOutcome, List.countP_cons, List.length_cons]
      simp only [countOutcome] at ih
      cases h : rc.outcome <;> simp [h] <;> omega

/-! ## Claim C1: terminal states and the final summary -/

/-- C1 (amended): in a launched batch every job produces exactly one record
with exactly one terminal outcome, the counts satisfy
succeeded + failed + cancelled = total, and the last emitted event is the
summary reporting the succeeded and failed counts out of the total.  The
cancelled count is not itself part of the summary (it is determined as
total minus the other two). -/
theorem batch_terminal_counts (strat : Strategy) (maxConc : Nat)
    (jobs : List JobSpec) (hne : jobs ≠ []) :
    (runWorker strat none maxConc jobs).records.length = jobs.length ∧
    countOutcome Outcome.Succeeded (runWorker strat none maxConc jobs).records
      + countOutcome Outcome.Failed (runWorker strat none maxConc jobs).records
      + countOutcome Outcome.Cancelled (runWorker strat none maxConc jobs).records
      = jobs.length ∧
    (runWorker strat none maxConc jobs).events.getLast?
      = some (finalEvent
          (countOutcome Outcome.Succeeded (runWorker strat none maxConc jobs).records)
          (countOutcome Outcome.Failed (runWorker strat none maxConc jobs).records)
          jobs.length) := by
  have hrec := runWorker_records strat maxConc jobs hne
  have hlen : (batchRun strat maxConc jobs).2.length = jobs.length := by
    have := runJobs_length strat jobs.length jobs
      ({ initExec with statusEvents := [startingEvent jobs.length maxConc] })
    simpa [batchRun] using this
  refine ⟨by rw [hrec, hlen], ?_, ?_⟩
  · rw [hrec, countOutcome_partition, hlen]
  · rw [hrec, runWorker_events strat maxConc jobs hne, List.getLast?_concat,
      batchRun_successful, batchRun_failed]

/-- C1 witness: a concrete two-job batch where both logins succeed. -/
theorem batch_terminal_counts_witness :
    jobsC7 ≠ [] ∧
    ((runWorker stratConstOk none 2 jobsC7).records.length = jobsC7.length ∧
     countOutcome Outcome.Succeeded (runWorker stratConstOk none 2 jobsC7).records
       + countOutcome Outcome.Failed (runWorker stratConstOk none 2 jobsC7).records
       + countOutcome Outcome.Cancelled (runWorker stratConstOk none 2 jobsC7).records
       = jobsC7.length ∧
     (runWorker stratConstOk none 2 jobsC7).events.getLast?
       = some (finalEvent
           (countOutcome Outcome.Succeeded (runWorker stratConstOk none 2 jobsC7).records)
           (countOutcome Outcome.Failed (runWorker stratConstOk none 2 jobsC7).records)
           jobsC7.length)) :=
  ⟨by decide, batch_terminal_counts stratConstOk 2 jobsC7 (by decide)⟩

/-- C1 counterexample: a batch whose one job is short-circuited by a stop
request ends with one cancelled job, yet the summary event reports only the
succeeded and failed counts ("Completed: 0 successful, 0 failed out of 1
accounts"); no emitted event mentions a cancelled count, so the claim that
the final summary reports the succeeded/failed/cancelled counts is false as
stated. -/
theorem summary_omits_cancelled :
    countOutcome Outcome.Cancelled
        (runWorker stratConstOk none 2 jobsOneCancelled).records = 1 ∧
    (runWorker stratConstOk none 2 jobsOneCancelled).events.getLast?
      = some (finalEvent 0 0 1) ∧
    (finalEvent 0 0 1).message
      = "Completed: 0 successful, 0 failed out of 1 accounts" ∧
    ((runWorker stratConstOk none 2 jobsOneCancelled).events.filter
        (fun ev => hasSubstr ("cancelled") ev.message)).length = 0 := by
  decide

/-! ## Per-index access to a batch's records -/

theorem batchRun_fate_at (strat : Strategy) (maxConc : Nat) (jobs : List JobSpec)
    (i : Nat) :
    ((batchRun strat maxConc jobs).2[i]?).map recordFate
      = (jobs[i]?).map (jobFate strat) := by
  have h := runJobs_fates strat jobs.length jobs
    ({ initExec with statusEvents := [startingEvent jobs.length maxConc] })
  have h2 := congrArg (fun (l : List (Outcome × LoginResult × Account × Account)) => l[i]?) h
  simpa [batchRun, List.getElem?_map] using h2

theorem batchRun_flag_at (strat : Strategy) (maxConc : Nat) (jobs : List JobSpec)
    (i : Nat) :
    ((batchRun strat maxConc jobs).2[i]?).map (fun rc => rc.sessionId.isSome)
      = (jobs[i]?).map ranJob := by
  have h := runJobs_session_flags strat jobs.length jobs
    ({ initExec with statusEvents := [startingEvent jobs.length maxConc] })
  have h2 := congrArg (fun (l : List Bool) => l[i]?) h
  simpa [batchRun, List.getElem?_map] using h2

/-! ## Claim C3: unknown broker -/

/-- C3 (amended): a job whose broker id has no registered login function is
recorded as an immediate Failed outcome whose message identifies the unknown
broker, and every other job's fate is a function of its own inputs alone
(the batch proceeds normally); however a browser context IS created for the
unknown-broker job — `process_login` creates the context and page before
`run_broker_login` performs the registry lookup — and is released like any
other. -/
theorem unknown_broker_failed (strat : Strategy) (maxConc : Nat)
    (jobs : List JobSpec) (i : Nat) (j : JobSpec)
    (hji : jobs[i]? = some j)
    (hb : BROKER_LOGIN_KEYS.contains j.broker = false)
    (hrun : j.stopAtCheck = false) :
    (∃ rc, (runWorker strat none maxConc jobs).records[i]? = some rc ∧
       rc.outcome = Outcome.Failed ∧
       rc.result = { status := false, message := "Unknown broker: " ++ j.broker } ∧
       rc.finalAccount = { j.account with status := "Login Failed" } ∧
       rc.sessionId.isSome = true) ∧
    (∀ (k : Nat) (jk : JobSpec), jobs[k]? = some jk →
       ∃ rck, (runWorker strat none maxConc jobs).records[k]? = some rck ∧
         recordFate rck = jobFate strat jk) := by
  have hne : jobs ≠ [] := by
    intro hE
    rw [hE] at hji
    simp at hji
  have hrw := runWorker_records strat maxConc jobs hne
  have hidx : ∀ (k : Nat) (jk : JobSpec), jobs[k]? = some jk →
      ∃ rck, (batchRun strat maxConc jobs).2[k]? = some rck ∧
        recordFate rck = jobFate strat jk := by
    intro k jk hk
    have h := batchRun_fate_at strat maxConc jobs k
    rw [hk] at h
    obtain ⟨rck, hrck, hfate⟩ := Option.map_eq_some'.mp h
    exact ⟨rck, hrck, hfate⟩
  refine ⟨?_, fun k jk hk => ?_⟩
  · obtain ⟨rc, hrc, hfate⟩ := hidx i j hji
    have hrb : run_broker_login strat j.broker j.account
        = Except.ok { status := false, message := "Unknown broker: " ++ j.broker } := by
      unfold run_broker_login
      rw [hb]
      simp
    have hfq : jobFate strat j
        = (Outcome.Failed,
           { status := false, message := "Unknown broker: " ++ j.broker },
           j.account, { j.account with status := "Login Failed" }) := by
      simp [jobFate, hrun, hrb]
    rw [hfq] at hfate
    simp only [recordFate, Prod.mk.injEq] at hfate
    have hflag := batchRun_flag_at strat maxConc jobs i
    rw [hji, hrc] at hflag
    simp only [Option.map_some', Option.some.injEq, ranJob, hrun] at hflag
    refine ⟨rc, by rw [hrw]; exact hrc, hfate.1, hfate.2.1, hfate.2.2.2, by simp [hflag]⟩
  · obtain ⟨rck, hrck, hfate⟩ := hidx k jk hk
    exact ⟨rck, by rw [hrw]; exact hrck, hfate⟩

/-- C3 witness: in the concrete three-job batch `jobsC3` the middle job
references the unregistered broker id "nobroker" and is recorded as Failed
with the identifying message. -/
theorem unknown_broker_failed_witness :
    ∃ rc, (runWorker stratConstOk none 2 jobsC3).records[1]? = some rc ∧
      rc.outcome = Outcome.Failed ∧
      rc.result = { status := false, message := "Unknown broker: " ++ "nobroker" } ∧
      rc.finalAccount = { acctB with status := "Login Failed" } ∧
      rc.sessionId.isSome = true := by
  have h := (unknown_broker_failed stratConstOk 2 jobsC3 1
    ({ broker := "nobroker", account := acctB, stopAtCheck := false, finishTime := 2 })
    (by decide) (by decide) rfl).1
  simpa [acctB] using h

/-- C3 counterexample: in `jobsC3` the unknown-broker job is Failed with the
identifying message but receives browser context 1 — three contexts are
created for the three jobs — contradicting the claim that no session is
created for a job whose broker is unknown.  The other two jobs succeed. -/
theorem unknown_broker_session_created :
    ((runWorker stratConstOk none 2 jobsC3).records.map
        (fun rc => (rc.outcome, rc.sessionId, rc.result.message)))
      = [(Outcome.Succeeded, some 0, "Login successful"),
         (Outcome.Failed, some 1, "Unknown broker: nobroker"),
         (Outcome.Succeeded, some 2, "Login successful")] ∧
    (runWorker stratConstOk none 2 jobsC3).sessionsCreated = [0, 1, 2] ∧
    (runWorker stratConstOk none 2 jobsC3).sessionsClosed = [0, 1, 2] := by
  decide

/-! ## Claim C6: ledger reconciliation and single persistence -/

theorem forall₂_of_map_eq {α β γ : Type} (f : α → γ) (g : β → γ) :
    ∀ (l₁ : List α) (l₂ : List β), l₁.map f = l₂.map g →
      List.Forall₂ (fun a b => f a = g b) l₁ l₂
  | [], [], _ => List.Forall₂.nil
  | [], _ :: _, h => by simp at h
  | _ :: _, [], h => by simp at h
  | a :: l₁, b :: l₂, h => by
      simp only [List.map_cons, List.cons.injEq] at h
      exact List.Forall₂.cons h.1 (forall₂_of_map_eq f g l₁ l₂ h.2)

/-- how one job's fate translates into the reconciliation policy on its
account. -/
theorem fate_reconciles (strat : Strategy) (j : JobSpec) (rc : JobRecord)
    (h : recordFate rc = jobFate strat j) :
    rc.initialAccount = j.account ∧
    (rc.outcome = Outcome.Succeeded →
      rc.finalAccount
        = { j.account with status := "Logged In", last_login := some j.finishTime }) ∧
    (rc.outcome = Outcome.Failed →
      rc.finalAccount = { j.account with status := "Login Failed" }) ∧
    (rc.outcome = Outcome.Cancelled → rc.finalAccount = j.account) := by
  simp only [recordFate, jobFate] at h
  cases hs : j.stopAtCheck with
  | true =>
      simp only [hs, if_true, Prod.mk.injEq] at h
      obtain ⟨ho, _, hi, hf⟩ := h
      refine ⟨hi, fun hoc => ?_, fun hoc => ?_, fun _ => hf⟩ <;>
        (rw [ho] at hoc; exact Outcome.noConfusion hoc)
  | false =>
      simp only [hs, Bool.false_eq_true, if_false] at h
      cases hrb : run_broker_login strat j.broker j.account with
      | ok r =>
          rw [hrb] at h
          cases hst : r.status with
          | true =>
              simp only [hst, if_true, Prod.mk.injEq] at h
              obtain ⟨ho, _, hi, hf⟩ := h
              refine ⟨hi, fun _ => hf, fun hoc => ?_, fun hoc => ?_⟩ <;>
                (rw [ho] at hoc; exact Outcome.noConfusion hoc)
          | false =>
              simp only [hst, Bool.false_eq_true, if_false, Prod.mk.injEq] at h
              obtain ⟨ho, _, hi, hf⟩ := h
              refine ⟨hi, fun hoc => ?_, fun _ => hf, fun hoc => ?_⟩ <;>
                (rw [ho] at hoc; exact Outcome.noConfusion hoc)
      | error e =>
          rw [hrb] at h
          simp only [Prod.mk.injEq] at h
          obtain ⟨ho, _, hi, hf⟩ := h
          refine ⟨hi, fun hoc => ?_, fun _ => hf, fun hoc => ?_⟩ <;>
            (rw [ho] at hoc; exact Outcome.noConfusion hoc)

/-- C6: for a launched batch, reconciliation follows the policy — a
successful job's account gets status "Logged In" and last_login set to the
job's completion time, a failed job's account gets status "Login Failed"
(last_login untouched), a cancelled job's account is unchanged — and the
ledger of all processed accounts is persisted exactly once, after every job
finished; the fold state carries no persistence, so nothing durable happens
mid-batch. -/
theorem ledger_reconciliation (strat : Strategy) (maxConc : Nat)
    (jobs : List JobSpec) (hne : jobs ≠ []) :
    (runWorker strat none maxConc jobs).persisted
      = [ledgerOf (runWorker strat none maxConc jobs).records] ∧
    (runWorker strat none maxConc jobs).persisted.length = 1 ∧
    List.Forall₂ (fun (j : JobSpec) (rc : JobRecord) =>
        rc.initialAccount = j.account ∧
        (rc.outcome = Outcome.Succeeded →
          rc.finalAccount
            = { j.account with status := "Logged In", last_login := some j.finishTime }) ∧
        (rc.outcome = Outcome.Failed →
          rc.finalAccount = { j.account with status := "Login Failed" }) ∧
        (rc.outcome = Outcome.Cancelled → rc.finalAccount = j.account))
      jobs (runWorker strat none maxConc jobs).records := by
  have hrw := runWorker_records strat maxConc jobs hne
  have hpers := runWorker_persisted strat maxConc jobs hne
  refine ⟨by rw [hpers, hrw], by rw [hpers]; rfl, ?_⟩
  rw [hrw]
  have hmap : jobs.map (jobFate strat)
      = (batchRun strat maxConc jobs).2.map recordFate :=
    (runJobs_fates strat jobs.length jobs
      ({ initExec with statusEvents := [startingEvent jobs.length maxConc] })).symm
  have hf := forall₂_of_map_eq (jobFate strat) recordFate jobs
    (batchRun strat maxConc jobs).2 hmap
  refine hf.imp ?_
  intro j rc hfate
  exact fate_reconciles strat j rc hfate.symm

/-- C6 witness: persistence happens exactly once for the concrete two-job
batch. -/
theorem ledger_reconciliation_witness :
    (runWorker stratConstOk none 2 jobsC7).persisted
      = [ledgerOf (runWorker stratConstOk none 2 jobsC7).records] ∧
    (runWorker stratConstOk none 2 jobsC7).persisted.length = 1 :=
  ⟨(ledger_reconciliation stratConstOk 2 jobsC7 (by decide)).1,
   (ledger_reconciliation stratConstOk 2 jobsC7 (by decide)).2.1⟩

/-! ## Claim C7: strategy faults -/

theorem batchRun_events (strat : Strategy) (maxConc : Nat) (jobs : List JobSpec) :
    (batchRun strat maxConc jobs).1.statusEvents
      = startingEvent jobs.length maxConc :: jobs.filterMap (eventOf strat) := by
  have h := runJobs_events strat jobs.length jobs
    ({ initExec with statusEvents := [startingEvent jobs.length maxConc] })
  simpa [batchRun, initExec] using h

theorem batchRun_progress_length (strat : Strategy) (maxConc : Nat)
    (jobs : List JobSpec) :
    (batchRun strat maxConc jobs).1.progressEvents.length = jobs.countP ranJob := by
  have h := runJobs_progress_length strat jobs.length jobs
    ({ initExec with statusEvents := [startingEvent jobs.length maxConc] })
  simpa [batchRun, initExec] using h

/-- C7 (amended): a job whose strategy raises is recorded as Failed with the
fault's description and its account marked "Login Failed"; the fault never
aborts the batch — every job still yields exactly one record determined by
its own inputs, and the batch's event stream still ends with the summary.
However NO per-job status event is emitted for the faulted job (the
`except` branch of `process_login` returns without emitting): the status
events are exactly those of the jobs whose broker function returned a
result dict, and the faulted job is only accounted for in progress events. -/
theorem strategy_fault_isolated (strat : Strategy) (maxConc : Nat)
    (jobs : List JobSpec) (i : Nat) (j : JobSpec) (e : String)
    (hji : jobs[i]? = some j) (hrun : j.stopAtCheck = false)
    (hfault : run_broker_login strat j.broker j.account = Except.error e) :
    (∃ rc, (runWorker strat none maxConc jobs).records[i]? = some rc ∧
       rc.outcome = Outcome.Failed ∧
       rc.result = { status := false, message := e } ∧
       rc.finalAccount = { j.account with status := "Login Failed" }) ∧
    (runWorker strat none maxConc jobs).records.length = jobs.length ∧
    (∀ (k : Nat) (jk : JobSpec), jobs[k]? = some jk →
       ∃ rck, (runWorker strat none maxConc jobs).records[k]? = some rck ∧
         recordFate rck = jobFate strat jk) ∧
    eventOf strat j = none ∧
    (runWorker strat none maxConc jobs).events
      = startingEvent jobs.length maxConc
        :: (jobs.filterMap (eventOf strat)
            ++ [finalEvent
                 (countOutcome Outcome.Succeeded
                   (runWorker strat none maxConc jobs).records)
                 (countOutcome Outcome.Failed
                   (runWorker strat none maxConc jobs).records)
                 jobs.length]) ∧
    (runWorker strat none maxConc jobs).progressEvents.length
      = jobs.countP ranJob := by
  have hne : jobs ≠ [] := by
    intro hE
    rw [hE] at hji
    simp at hji
  have hrw := runWorker_records strat maxConc jobs hne
  have hidx : ∀ (k : Nat) (jk : JobSpec), jobs[k]? = some jk →
      ∃ rck, (batchRun strat maxConc jobs).2[k]? = some rck ∧
        recordFate rck = jobFate strat jk := by
    intro k jk hk
    have h := batchRun_fate_at strat maxConc jobs k
    rw [hk] at h
    obtain ⟨rck, hrck, hfate⟩ := Option.map_eq_some'.mp h
    exact ⟨rck, hrck, hfate⟩
  refine ⟨?_, ?_, ?_, ?_, ?_, ?_⟩
  · obtain ⟨rc, hrc, hfate⟩ := hidx i j hji
    have hfq : jobFate strat j
        = (Outcome.Failed, { status := false, message := e },
           j.account, { j.account with status := "Login Failed" }) := by
      simp [jobFate, hrun, hfault]
    rw [hfq] at hfate
    simp only [recordFate, Prod.mk.injEq] at hfate
    exact ⟨rc, by rw [hrw]; exact hrc, hfate.1, hfate.2.1, hfate.2.2.2⟩
  · rw [hrw]
    have := runJobs_length strat jobs.length jobs
      ({ initExec with statusEvents := [startingEvent jobs.length maxConc] })
    simpa [batchRun] using this
  · intro k jk hk
    obtain ⟨rck, hrck, hfate⟩ := hidx k jk hk
    exact ⟨rck, by rw [hrw]; exact hrck, hfate⟩
  · simp [eventOf, hrun, hfault]
  · rw [runWorker_events strat maxConc jobs hne, batchRun_events, hrw,
      batchRun_successful, batchRun_failed]
    simp
  · rw [runWorker_progress strat maxConc jobs hne, batchRun_progress_length]

/-- C7 witness: in the concrete batch `jobsC7` with `stratFaultA` the first
job's strategy raises "boom" and the job is recorded as Failed with that
description. -/
theorem strategy_fault_isolated_witness :
    ∃ rc, (runWorker stratFaultA none 2 jobsC7).records[0]? = some rc ∧
      rc.outcome = Outcome.Failed ∧
      rc.result = { status := false, message := "boom" } ∧
      rc.finalAccount = { acctA with status := "Login Failed" } := by
  have h := (strategy_fault_isolated stratFaultA 2 jobsC7 0
    ({ broker := "zerodha", account := acctA, stopAtCheck := false, finishTime := 1 })
    ("boom") (by decide) rfl rfl).1
  simpa [acctA] using h

/-- C7 counterexample: with `stratFaultA` on `jobsC7` the faulted job CA is
recorded Failed with "boom" and the batch continues (CB succeeds), but the
emitted events are exactly the startup event, CB's status event and the
summary — no per-job status event exists for CA, falsifying the claim that
a per-job status event is emitted for a faulted job. -/
theorem strategy_fault_no_event :
    ((runWorker stratFaultA none 2 jobsC7).records.map
        (fun rc => (rc.outcome, rc.result.message)))
      = [(Outcome.Failed, "boom"), (Outcome.Succeeded, "Login successful")] ∧
    (runWorker stratFaultA none 2 jobsC7).events
      = [startingEvent 2 2,
         { status := some true, message := "CB: Login successful",
           do_refresh := some true, final_update := false },
         finalEvent 1 1 2] ∧
    ((runWorker stratFaultA none 2 jobsC7).events.filter
        (fun ev => hasSubstr ("CA") ev.message)).length = 0 ∧
    (runWorker stratFaultA none 2 jobsC7).progressEvents = [(1, 2), (2, 2)] := by
  decide

/-! ## Claim C8: SessionHost launch failure -/

/-- C8: when the browser engine fails to launch at the `async with
PlaywrightDriver` entry, the whole batch is aborted: no job produces a
record (all stay Pending), no progress is reported, no browser context is
created, nothing is persisted, and the event stream is exactly the startup
announcement followed by a single fatal `Executor error: ...` event — one
event with a false status and none marked final. -/
theorem driver_start_failure_fatal (strat : Strategy) (maxConc : Nat)
    (jobs : List JobSpec) (e : String) (hne : jobs ≠ []) :
    (runWorker strat (some e) maxConc jobs).records = [] ∧
    (runWorker strat (some e) maxConc jobs).progressEvents = [] ∧
    (runWorker strat (some e) maxConc jobs).sessionsCreated = [] ∧
    (runWorker strat (some e) maxConc jobs).persisted = [] ∧
    (runWorker strat (some e) maxConc jobs).events
      = [startingEvent jobs.length maxConc,
         { status := some false, message := "Executor error: " ++ e,
           do_refresh := some false, final_update := false }] ∧
    ((runWorker strat (some e) maxConc jobs).events.countP
        (fun ev => ev.status == some false)) = 1 ∧
    ((runWorker strat (some e) maxConc jobs).events.countP
        (fun ev => ev.final_update)) = 0 := by
  have hlen : ¬ jobs.length = 0 := fun h => hne (List.length_eq_zero.mp h)
  have hev : (runWorker strat (some e) maxConc jobs).events
      = [startingEvent jobs.length maxConc,
         { status := some false, message := "Executor error: " ++ e,
           do_refresh := some false, final_update := false }] := by
    simp [runWorker, run_concurrent_logins, hlen]
  refine ⟨?_, ?_, ?_, ?_, hev, ?_, ?_⟩
  · simp [runWorker, run_concurrent_logins, hlen]
  · simp [runWorker, run_concurrent_logins, hlen]
  · simp [runWorker, run_concurrent_logins, hlen]
  · simp [runWorker, run_concurrent_logins, hlen]
  · rw [hev]; rfl
  · rw [hev]; rfl

/-- C8 witness: a concrete launch failure on a three-job batch. -/
theorem driver_start_failure_fatal_witness :
    (runWorker stratConstOk (some ("no browser")) 2 jobsC3).records = [] ∧
    (runWorker stratConstOk (some ("no browser")) 2 jobsC3).persisted = [] ∧
    ((runWorker stratConstOk (some ("no browser")) 2 jobsC3).events.countP
        (fun ev => ev.status == some false)) = 1 :=
  ⟨(driver_start_failure_fatal stratConstOk 2 jobsC3 ("no browser") (by decide)).1,
   (driver_start_failure_fatal stratConstOk 2 jobsC3 ("no browser") (by decide)).2.2.2.1,
   (driver_start_failure_fatal stratConstOk 2 jobsC3 ("no browser") (by decide)).2.2.2.2.2.1⟩

/-! ## Claim C9: one session per job -/

theorem batchRun_sessions (strat : Strategy) (maxConc : Nat) (jobs : List JobSpec) :
    (batchRun strat maxConc jobs).2.filterMap JobRecord.sessionId
      = List.range' 0 (jobs.countP ranJob) ∧
    (batchRun strat maxConc jobs).1.sessionsCreated
      = List.range' 0 (jobs.countP ranJob) ∧
    (batchRun strat maxConc jobs).1.sessionsClosed
      = List.range' 0 (jobs.countP ranJob) := by
  have h := runJobs_session_ids strat jobs.length jobs
    ({ initExec with statusEvents := [startingEvent jobs.length maxConc] })
  exact ⟨by simpa [batchRun, initExec] using h.1,
         by simpa [batchRun, initExec] using h.2.2.1,
         by simpa [batchRun, initExec] using h.2.2.2⟩

/-- C9: in a launched batch the browser contexts created are exactly the
distinct session ids attached to the records, in order — each session is
bound to exactly one job and no two jobs share one; every created session
is closed (the ids closed are exactly the ids created, covering all exit
paths including strategy faults); and the number of sessions created equals
the number of jobs that actually ran (jobs short-circuited by cancellation
carry no session). -/
theorem one_session_per_job (strat : Strategy) (maxConc : Nat)
    (jobs : List JobSpec) (hne : jobs ≠ []) :
    (runWorker strat none maxConc jobs).sessionsCreated
      = (runWorker strat none maxConc jobs).records.filterMap JobRecord.sessionId ∧
    (runWorker strat none maxConc jobs).sessionsCreated.Nodup ∧
    (runWorker strat none maxConc jobs).sessionsClosed
      = (runWorker strat none maxConc jobs).sessionsCreated ∧
    (runWorker strat none maxConc jobs).sessionsCreated.length
      = jobs.countP ranJob ∧
    (runWorker strat none maxConc jobs).records.countP
        (fun rc => rc.sessionId.isSome) = jobs.countP ranJob ∧
    (runWorker strat none maxConc jobs).records.length = jobs.length := by
  have hrw := runWorker_records strat maxConc jobs hne
  have hs := runWorker_sessions strat maxConc jobs hne
  have hb := batchRun_sessions strat maxConc jobs
  refine ⟨?_, ?_, ?_, ?_, ?_, ?_⟩
  · rw [hs.1, hrw, hb.2.1, hb.1]
  · rw [hs.1, hb.2.1]
    exact List.nodup_range' 0 (jobs.countP ranJob)
  · rw [hs.1, hs.2, hb.2.1, hb.2.2]
  · rw [hs.1, hb.2.1, List.length_range']
  · rw [hrw]
    have hm := runJobs_session_flags strat jobs.length jobs
      ({ initExec with statusEvents := [startingEvent jobs.length maxConc] })
    have hc := congrArg (List.countP (fun b => b)) hm
    rw [List.countP_map, List.countP_map] at hc
    simpa [batchRun, Function.comp] using hc
  · rw [hrw]
    have := runJobs_length strat jobs.length jobs
      ({ initExec with statusEvents := [startingEvent jobs.length maxConc] })
    simpa [batchRun] using this

/-- C9 witness: the concrete three-job batch creates sessions 0, 1, 2, one
per job, all closed. -/
theorem one_session_per_job_witness :
    (runWorker stratConstOk none 2 jobsC3).sessionsCreated
      = (runWorker stratConstOk none 2 jobsC3).records.filterMap JobRecord.sessionId ∧
    (runWorker stratConstOk none 2 jobsC3).sessionsCreated.Nodup ∧
    (runWorker stratConstOk none 2 jobsC3).sessionsClosed
      = (runWorker stratConstOk none 2 jobsC3).sessionsCreated :=
  ⟨(one_session_per_job stratConstOk 2 jobsC3 (by decide)).1,
   (one_session_per_job stratConstOk 2 jobsC3 (by decide)).2.1,
   (one_session_per_job stratConstOk 2 jobsC3 (by decide)).2.2.1⟩

/-! ## Scheduler model: generic machinery -/

/-- a predicate preserved by every enabled step is preserved by every valid
trace. -/
theorem runTrace_inv (gate : Nat) (P : SchedState → Prop)
    (hP : ∀ s s' a, step gate s a = some s' → P s → P s') :
    ∀ (acts : List Act) (s s' : SchedState),
      runTrace gate s acts = some s' → P s → P s' := by
  intro acts
  induction acts with
  | nil =>
      intro s s' h hp
      simp only [runTrace] at h
      cases h
      exact hp
  | cons a rest ih =>
      intro s s' h hp
      simp only [runTrace] at h
      cases hst : step gate s a with
      | none => rw [hst] at h; cases h
      | some s1 =>
          rw [hst] at h
          exact ih s1 s' h (hP s s1 a hst hp)

theorem runTrace_append (gate : Nat) (l₁ l₂ : List Act) :
    ∀ s : SchedState,
      runTrace gate s (l₁ ++ l₂)
        = match runTrace gate s l₁ with
          | some s1 => runTrace gate s1 l₂
          | none => none := by
  induction l₁ with
  | nil => intro s; simp [runTrace]
  | cons a rest ih =>
      intro s
      simp only [List.cons_append, runTrace]
      cases step gate s a <;> simp [ih]

/-- replacing a known element changes a count by the difference of the two
elements' predicate values. -/
theorem countP_set_eq (p : SchedJob → Bool) (l : List SchedJob) (i : Nat)
    (j j' : SchedJob) (hj : l[i]? = some j) :
    l.countP p + (if p j' then 1 else 0)
      = (l.set i j').countP p + (if p j then 1 else 0) := by
  obtain ⟨hlt, hval⟩ := List.getElem?_eq_some.mp hj
  have hA : (if p j = true then 1 else 0) ≤ l.countP p := by
    cases hpj : p j with
    | false => simp
    | true =>
        have := List.countP_pos_iff.mpr ⟨j, List.getElem?_mem hj, hpj⟩
        simpa using this
  rw [List.countP_set p l i j' hlt, hval]
  omega

theorem open_le_active (s : SchedState) : openSessionCount s ≤ activeCount s := by
  refine List.countP_mono_left ?_
  intro j _ hj
  cases hph : j.phase <;> simp [sessionIsOpen, hph] at hj ⊢ <;> simp [holdsSlot]

/-- evaluation of `holdsSlot` on each phase, used to keep `countP` atoms
intact while reducing scalar conditions. -/
theorem holdsSlot_pending : holdsSlot Phase.pending = false := rfl

theorem holdsSlot_cancelled : holdsSlot Phase.cancelled = false := rfl

theorem holdsSlot_waiting : holdsSlot Phase.waiting = false := rfl

theorem holdsSlot_acquired : holdsSlot Phase.acquired = true := rfl

theorem holdsSlot_sessionOpen : holdsSlot Phase.sessionOpen = true := rfl

theorem holdsSlot_sessionClosed : holdsSlot Phase.sessionClosed = true := rfl

theorem holdsSlot_finished : holdsSlot Phase.finished = false := rfl

/-- a single step keeps the number of gate holders at or below the gate. -/
theorem step_gateInv (gate : Nat) (s s' : SchedState) (a : Act)
    (hstep : step gate s a = some s') (hinv : activeCount s ≤ gate) :
    activeCount s' ≤ gate := by
  cases a with
  | requestStop =>
      simp only [step] at hstep
      cases hstep
      simpa [activeCount] using hinv
  | checkStop i =>
      simp only [step] at hstep
      cases hj : s.jobs[i]? with
      | none => simp only [hj] at hstep; cases hstep
      | some j =>
          simp only [hj] at hstep
          by_cases hp : j.phase = Phase.pending
          · rw [if_pos hp] at hstep
            cases hstep
            cases hcr : s.cancelRequested with
            | false =>
                have hc := countP_set_eq (fun x => holdsSlot x.phase) s.jobs i j
                  ({ j with phase := Phase.waiting }) hj
                simp only [activeCount, hcr, Bool.false_eq_true, if_false] at hinv ⊢
                simp only [hp, holdsSlot_pending, holdsSlot_waiting, if_false,
                  Bool.false_eq_true] at hc
                omega
            | true =>
                have hc := countP_set_eq (fun x => holdsSlot x.phase) s.jobs i j
                  ({ j with phase := Phase.cancelled }) hj
                simp only [activeCount, hcr, if_true] at hinv ⊢
                simp only [hp, holdsSlot_pending, holdsSlot_cancelled, if_false,
                  Bool.false_eq_true] at hc
                omega
          · rw [if_neg hp] at hstep
            cases hstep
  | acquireGate i =>
      simp only [step] at hstep
      cases hj : s.jobs[i]? with
      | none => simp only [hj] at hstep; cases hstep
      | some j =>
          simp only [hj] at hstep
          by_cases hp : j.phase = Phase.waiting ∧ activeCount s < gate
          · rw [if_pos hp] at hstep
            cases hstep
            have hc := countP_set_eq (fun x => holdsSlot x.phase) s.jobs i j
              ({ j with phase := Phase.acquired, slotsTaken := j.slotsTaken + 1 }) hj
            have hlt := hp.2
            simp only [activeCount] at hlt hinv ⊢
            simp only [hp.1, holdsSlot_waiting, holdsSlot_acquired, if_true, if_false,
              Bool.false_eq_true] at hc
            omega
          · rw [if_neg hp] at hstep
            cases hstep
  | openSession i =>
      simp only [step] at hstep
      cases hj : s.jobs[i]? with
      | none => simp only [hj] at hstep; cases hstep
      | some j =>
          simp only [hj] at hstep
          by_cases hp : j.phase = Phase.acquired
          · rw [if_pos hp] at hstep
            cases hstep
            have hc := countP_set_eq (fun x => holdsSlot x.phase) s.jobs i j
              ({ j with phase := Phase.sessionOpen,
                        sessionsOpened := j.sessionsOpened + 1 }) hj
            simp only [activeCount] at hinv ⊢
            simp only [hp, holdsSlot_acquired, holdsSlot_sessionOpen, if_true] at hc
            omega
          · rw [if_neg hp] at hstep
            cases hstep
  | closeSession i =>
      simp only [step] at hstep
      cases hj : s.jobs[i]? with
      | none => simp only [hj] at hstep; cases hstep
      | some j =>
          simp only [hj] at hstep
          by_cases hp : j.phase = Phase.sessionOpen
          · rw [if_pos hp] at hstep
            cases hstep
            have hc := countP_set_eq (fun x => holdsSlot x.phase) s.jobs i j
              ({ j with phase := Phase.sessionClosed }) hj
            simp only [activeCount] at hinv ⊢
            simp only [hp, holdsSlot_sessionOpen, holdsSlot_sessionClosed, if_true] at hc
            omega
          · rw [if_neg hp] at hstep
            cases hstep
  | releaseGate i =>
      simp only [step] at hstep
      cases hj : s.jobs[i]? with
      | none => simp only [hj] at hstep; cases hstep
      | some j =>
          simp only [hj] at hstep
          by_cases hp : j.phase = Phase.sessionClosed
          · rw [if_pos hp] at hstep
            cases hstep
            have hc := countP_set_eq (fun x => holdsSlot x.phase) s.jobs i j
              ({ j with phase := Phase.finished }) hj
            simp only [activeCount] at hinv ⊢
            simp only [hp, holdsSlot_sessionClosed, holdsSlot_finished, if_true,
              if_false, Bool.false_eq_true] at hc
            omega
          · rw [if_neg hp] at hstep
            cases hstep

/-! ## Scheduler model: the gate bound is attained -/

/-- the three resumptions that take job `i` from pending to an open
session. -/
def openActs (i : Nat) : List Act :=
  [Act.checkStop i, Act.acquireGate i, Act.openSession i]

/-- the schedule that opens jobs `k, k+1, ..., k+m-1` in turn. -/
def openSeq (k : Nat) : Nat → List Act
  | 0 => []
  | m + 1 => openActs k ++ openSeq (k + 1) m

/-- a job holding the gate with its context open. -/
def openedJob : SchedJob :=
  { phase := Phase.sessionOpen, slotsTaken := 1, sessionsOpened := 1 }

/-- the state in which the first `k` jobs hold open sessions and the rest
have not started. -/
def openedState (n k : Nat) : SchedState :=
  { cancelRequested := false,
    jobs := List.replicate k openedJob ++ List.replicate (n - k) initJob }

/-- like `openedState`, with job `k` singled out in an arbitrary state. -/
def midState (n k : Nat) (j : SchedJob) : SchedState :=
  { cancelRequested := false,
    jobs := List.replicate k openedJob ++ j :: List.replicate (n - k - 1) initJob }

theorem midState_get (n k : Nat) (j : SchedJob) :
    (midState n k j).jobs[k]? = some j := by
  simp only [midState]
  rw [List.getElem?_append_right (by simp)]
  simp

theorem midState_set (n k : Nat) (j j' : SchedJob) :
    (midState n k j).jobs.set k j' = (midState n k j').jobs := by
  simp [midState, List.set_append]

theorem midState_cancel (n k : Nat) (j : SchedJob) :
    (midState n k j).cancelRequested = false := rfl

theorem midState_active (n k : Nat) (j : SchedJob) :
    activeCount (midState n k j)
      = k + (if holdsSlot j.phase then 1 else 0) := by
  simp [activeCount, midState, List.countP_append, List.countP_cons,
    List.countP_replicate, openedJob, initJob, holdsSlot_sessionOpen,
    holdsSlot_pending, Nat.add_comm]

theorem open_one_step (gate n k : Nat) (hg : k < gate) :
    runTrace gate (midState n k initJob) (openActs k)
      = some (midState n k openedJob) := by
  have h1 : step gate (midState n k initJob) (Act.checkStop k)
      = some (midState n k ⟨Phase.waiting, 0, 0⟩) := by
    simp [step, midState_get, midState_set, midState_cancel, initJob]
    rfl
  have h2 : step gate (midState n k ⟨Phase.waiting, 0, 0⟩) (Act.acquireGate k)
      = some (midState n k ⟨Phase.acquired, 1, 0⟩) := by
    simp [step, midState_get, midState_set, midState_cancel, midState_active,
      holdsSlot_waiting, hg]
    rfl
  have h3 : step gate (midState n k ⟨Phase.acquired, 1, 0⟩) (Act.openSession k)
      = some (midState n k openedJob) := by
    simp [step, midState_get, midState_set, midState_cancel, openedJob]
    rfl
  simp only [openActs, runTrace, h1, h2, h3]

theorem openSeq_run (gate n : Nat) :
    ∀ (m k : Nat), k + m ≤ gate → k + m ≤ n →
      runTrace gate (openedState n k) (openSeq k m)
        = some (openedState n (k + m)) := by
  intro m
  induction m with
  | zero => intro k h1 h2; simp [openSeq, runTrace]
  | succ m ih =>
      intro k h1 h2
      obtain ⟨q, hq⟩ : ∃ q, n - k = q + 1 := ⟨n - k - 1, by omega⟩
      have heq : openedState n k = midState n k initJob := by
        simp only [openedState, midState, hq, Nat.add_sub_cancel,
          List.replicate_succ]
      have heq2 : midState n k openedJob = openedState n (k + 1) := by
        simp only [openedState, midState, show n - (k + 1) = q by omega, hq,
          Nat.add_sub_cancel, List.replicate_succ']
        simp
      rw [show openSeq k (m + 1) = openActs k ++ openSeq (k + 1) m from rfl,
        runTrace_append, heq, open_one_step gate n k (by omega), heq2]
      rw [show k + (m + 1) = (k + 1) + m by omega]
      exact ih (k + 1) (by omega) (by omega)

/-! ## Claim C2: the gate bounds simultaneous sessions -/

/-- C2: in every execution of a batch of `n` jobs under a gate of size
`gate`, at no reachable state do more than `gate` jobs simultaneously hold
an open browser context; and the gate is the only bound — whenever
`gate ≤ n` there is an execution in which exactly `gate` sessions are
simultaneously open. -/
theorem gate_bounds_open_sessions (gate n : Nat) :
    (∀ (acts : List Act) (s : SchedState),
       runTrace gate (initSched n) acts = some s → openSessionCount s ≤ gate) ∧
    (gate ≤ n → ∃ (acts : List Act) (s : SchedState),
       runTrace gate (initSched n) acts = some s ∧ openSessionCount s = gate) := by
  constructor
  · intro acts s h
    have hinit : activeCount (initSched n) ≤ gate := by
      simp [activeCount, initSched, List.countP_replicate, initJob, holdsSlot_pending]
    have hact : activeCount s ≤ gate :=
      runTrace_inv gate (fun st => activeCount st ≤ gate)
        (fun st st' a hst hp => step_gateInv gate st st' a hst hp)
        acts (initSched n) s h hinit
    exact le_trans (open_le_active s) hact
  · intro hkn
    refine ⟨openSeq 0 gate, openedState n gate, ?_, ?_⟩
    · have h0 : initSched n = openedState n 0 := by
        simp [initSched, openedState]
      rw [h0]
      simpa using openSeq_run gate n gate 0 (by omega) (by omega)
    · simp only [openSessionCount, openedState, List.countP_append,
        List.countP_replicate, openedJob, initJob]
      simp [sessionIsOpen]

/-- C2 witness: with a gate of 2 on a batch of 3 jobs, a reachable state
holds exactly 2 simultaneously open sessions. -/
theorem gate_bounds_open_sessions_witness :
    ∃ (acts : List Act) (s : SchedState),
      runTrace 2 (initSched 3) acts = some s ∧ openSessionCount s = 2 :=
  (gate_bounds_open_sessions 2 3).2 (by omega)

/-! ## Scheduler model: cancellation -/

/-- a job still pending or already cancelled has never taken a gate slot nor
created a session. -/
def CancInv (s : SchedState) : Prop :=
  ∀ j ∈ s.jobs, (j.phase = Phase.pending ∨ j.phase = Phase.cancelled) →
    j.slotsTaken = 0 ∧ j.sessionsOpened = 0

theorem step_cancInv (gate : Nat) (s s' : SchedState) (a : Act)
    (hstep : step gate s a = some s') (hinv : CancInv s) : CancInv s' := by
  cases a with
  | requestStop =>
      simp only [step] at hstep
      cases hstep
      exact fun j hm => hinv j hm
  | checkStop i =>
      simp only [step] at hstep
      cases hj : s.jobs[i]? with
      | none => simp only [hj] at hstep; cases hstep
      | some j0 =>
          simp only [hj] at hstep
          by_cases hp : j0.phase = Phase.pending
          · rw [if_pos hp] at hstep
            cases hstep
            intro j hm hph
            rcases List.mem_or_eq_of_mem_set hm with hin | hEq
            · exact hinv j hin hph
            · subst hEq
              simpa using hinv j0 (List.getElem?_mem hj) (Or.inl hp)
          · rw [if_neg hp] at hstep; cases hstep
  | acquireGate i =>
      simp only [step] at hstep
      cases hj : s.jobs[i]? with
      | none => simp only [hj] at hstep; cases hstep
      | some j0 =>
          simp only [hj] at hstep
          by_cases hp : j0.phase = Phase.waiting ∧ activeCount s < gate
          · rw [if_pos hp] at hstep
            cases hstep
            intro j hm hph
            rcases List.mem_or_eq_of_mem_set hm with hin | hEq
            · exact hinv j hin hph
            · subst hEq; simp at hph
          · rw [if_neg hp] at hstep; cases hstep
  | openSession i =>
      simp only [step] at hstep
      cases hj : s.jobs[i]? with
      | none => simp only [hj] at hstep; cases hstep
      | some j0 =>
          simp only [hj] at hstep
          by_cases hp : j0.phase = Phase.acquired
          · rw [if_pos hp] at hstep
            cases hstep
            intro j hm hph
            rcases List.mem_or_eq_of_mem_set hm with hin | hEq
            · exact hinv j hin hph
            · subst hEq; simp at hph
          · rw [if_neg hp] at hstep; cases hstep
  | closeSession i =>
      simp only [step] at hstep
      cases hj : s.jobs[i]? with
      | none => simp only [hj] at hstep; cases hstep
      | some j0 =>
          simp only [hj] at hstep
          by_cases hp : j0.phase = Phase.sessionOpen
          · rw [if_pos hp] at hstep
            cases hstep
            intro j hm hph
            rcases List.mem_or_eq_of_mem_set hm with hin | hEq
            · exact hinv j hin hph
            · subst hEq; simp at hph
          · rw [if_neg hp] at hstep; cases hstep
  | releaseGate i =>
      simp only [step] at hstep
      cases hj : s.jobs[i]? with
      | none => simp only [hj] at hstep; cases hstep
      | some j0 =>
          simp only [hj] at hstep
          by_cases hp : j0.phase = Phase.sessionClosed
          · rw [if_pos hp] at hstep
            cases hstep
            intro j hm hph
            rcases List.mem_or_eq_of_mem_set hm with hin | hEq
            · exact hinv j hin hph
            · subst hEq; simp at hph
          · rw [if_neg hp] at hstep; cases hstep

/-- once the stop flag is set while every job is still pending or cancelled,
that stays true forever: no job can get past the checkpoint. -/
def FrozenInv (s : SchedState) : Prop :=
  s.cancelRequested = true ∧
  ∀ j ∈ s.jobs, j.phase = Phase.pending ∨ j.phase = Phase.cancelled

theorem step_frozenInv (gate : Nat) (s s' : SchedState) (a : Act)
    (hstep : step gate s a = some s') (hinv : FrozenInv s) : FrozenInv s' := by
  obtain ⟨hcr, hall⟩ := hinv
  cases a with
  | requestStop =>
      simp only [step] at hstep
      cases hstep
      exact ⟨rfl, hall⟩
  | checkStop i =>
      simp only [step] at hstep
      cases hj : s.jobs[i]? with
      | none => simp only [hj] at hstep; cases hstep
      | some j0 =>
          simp only [hj] at hstep
          by_cases hp : j0.phase = Phase.pending
          · rw [if_pos hp] at hstep
            cases hstep
            refine ⟨hcr, ?_⟩
            intro j hm
            rcases List.mem_or_eq_of_mem_set hm with hin | hEq
            · exact hall j hin
            · subst hEq
              simp [hcr]
          · rw [if_neg hp] at hstep; cases hstep
  | acquireGate i =>
      simp only [step] at hstep
      cases hj : s.jobs[i]? with
      | none => simp only [hj] at hstep; cases hstep
      | some j0 =>
          simp only [hj] at hstep
          by_cases hp : j0.phase = Phase.waiting ∧ activeCount s < gate
          · exfalso
            rcases hall j0 (List.getElem?_mem hj) with h | h <;>
              (rw [hp.1] at h; exact Phase.noConfusion h)
          · rw [if_neg hp] at hstep; cases hstep
  | openSession i =>
      simp only [step] at hstep
      cases hj : s.jobs[i]? with
      | none => simp only [hj] at hstep; cases hstep
      | some j0 =>
          simp only [hj] at hstep
          by_cases hp : j0.phase = Phase.acquired
          · exfalso
            rcases hall j0 (List.getElem?_mem hj) with h | h <;>
              (rw [hp] at h; exact Phase.noConfusion h)
          · rw [if_neg hp] at hstep; cases hstep
  | closeSession i =>
      simp only [step] at hstep
      cases hj : s.jobs[i]? with
      | none => simp only [hj] at hstep; cases hstep
      | some j0 =>
          simp only [hj] at hstep
          by_cases hp : j0.phase = Phase.sessionOpen
          · exfalso
            rcases hall j0 (List.getElem?_mem hj) with h | h <;>
              (rw [hp] at h; exact Phase.noConfusion h)
          · rw [if_neg hp] at hstep; cases hstep
  | releaseGate i =>
      simp only [step] at hstep
      cases hj : s.jobs[i]? with
      | none => simp only [hj] at hstep; cases hstep
      | some j0 =>
          simp only [hj] at hstep
          by_cases hp : j0.phase = Phase.sessionClosed
          · exfalso
            rcases hall j0 (List.getElem?_mem hj) with h | h <;>
              (rw [hp] at h; exact Phase.noConfusion h)
          · rw [if_neg hp] at hstep; cases hstep

theorem getElem?_set_self {α : Type} (l : List α) (i : Nat) (a : α)
    (h : i < l.length) : (l.set i a)[i]? = some a := by
  simp [List.getElem?_set, h]

theorem finish_from_closed (gate : Nat) (s : SchedState) (i : Nat) (j : SchedJob)
    (hj : s.jobs[i]? = some j) (hp : j.phase = Phase.sessionClosed) :
    ∃ (s' : SchedState) (j' : SchedJob),
      runTrace gate s [Act.releaseGate i] = some s' ∧
        s'.jobs[i]? = some j' ∧ j'.phase = Phase.finished := by
  have hlen : i < s.jobs.length := (List.getElem?_eq_some.mp hj).1
  refine ⟨{ s with jobs := s.jobs.set i (⟨Phase.finished, j.slotsTaken, j.sessionsOpened⟩ : SchedJob) }, (⟨Phase.finished, j.slotsTaken, j.sessionsOpened⟩ : SchedJob), ?_, ?_, rfl⟩
  · simp only [runTrace, step, hj]
    rw [if_pos hp]
  · exact getElem?_set_self _ _ _ hlen

theorem finish_from_open (gate : Nat) (s : SchedState) (i : Nat) (j : SchedJob)
    (hj : s.jobs[i]? = some j) (hp : j.phase = Phase.sessionOpen) :
    ∃ (s' : SchedState) (j' : SchedJob),
      runTrace gate s [Act.closeSession i, Act.releaseGate i] = some s' ∧
        s'.jobs[i]? = some j' ∧ j'.phase = Phase.finished := by
  have hlen : i < s.jobs.length := (List.getElem?_eq_some.mp hj).1
  have h1 : step gate s (Act.closeSession i)
      = some { s with jobs := s.jobs.set i (⟨Phase.sessionClosed, j.slotsTaken, j.sessionsOpened⟩ : SchedJob) } := by
    simp only [step, hj]
    rw [if_pos hp]
  have hj1 : ({ s with jobs := s.jobs.set i (⟨Phase.sessionClosed, j.slotsTaken, j.sessionsOpened⟩ : SchedJob) } : SchedState).jobs[i]?
      = some (⟨Phase.sessionClosed, j.slotsTaken, j.sessionsOpened⟩ : SchedJob) :=
    getElem?_set_self _ _ _ hlen
  obtain ⟨s', j', hrun, hget, hfin⟩ := finish_from_closed gate _ i _ hj1 rfl
  refine ⟨s', j', ?_, hget, hfin⟩
  simp only [runTrace, h1]
  simpa [runTrace] using hrun

theorem finish_from_acquired (gate : Nat) (s : SchedState) (i : Nat) (j : SchedJob)
    (hj : s.jobs[i]? = some j) (hp : j.phase = Phase.acquired) :
    ∃ (s' : SchedState) (j' : SchedJob),
      runTrace gate s [Act.openSession i, Act.closeSession i, Act.releaseGate i]
          = some s' ∧
        s'.jobs[i]? = some j' ∧ j'.phase = Phase.finished := by
  have hlen : i < s.jobs.length := (List.getElem?_eq_some.mp hj).1
  have h1 : step gate s (Act.openSession i)
      = some { s with jobs := s.jobs.set i (⟨Phase.sessionOpen, j.slotsTaken, j.sessionsOpened + 1⟩ : SchedJob) } := by
    simp only [step, hj]
    rw [if_pos hp]
  have hj1 : ({ s with jobs := s.jobs.set i (⟨Phase.sessionOpen, j.slotsTaken, j.sessionsOpened + 1⟩ : SchedJob) } : SchedState).jobs[i]?
      = some (⟨Phase.sessionOpen, j.slotsTaken, j.sessionsOpened + 1⟩ : SchedJob) :=
    getElem?_set_self _ _ _ hlen
  obtain ⟨s', j', hrun, hget, hfin⟩ := finish_from_open gate _ i _ hj1 rfl
  refine ⟨s', j', ?_, hget, hfin⟩
  simp only [runTrace, h1]
  simpa [runTrace] using hrun

/-- a job that holds a gate slot can always be driven to the finished state
by its own remaining resumptions, regardless of the stop flag. -/
theorem finish_from_slot (gate : Nat) (s : SchedState) (i : Nat) (j : SchedJob)
    (hj : s.jobs[i]? = some j) (hhold : holdsSlot j.phase = true) :
    ∃ (acts : List Act) (s' : SchedState) (j' : SchedJob),
      runTrace gate s acts = some s' ∧ s'.jobs[i]? = some j' ∧
        j'.phase = Phase.finished := by
  cases hph : j.phase with
  | acquired =>
      obtain ⟨s', j', hrun, hget, hfin⟩ := finish_from_acquired gate s i j hj hph
      exact ⟨_, s', j', hrun, hget, hfin⟩
  | sessionOpen =>
      obtain ⟨s', j', hrun, hget, hfin⟩ := finish_from_open gate s i j hj hph
      exact ⟨_, s', j', hrun, hget, hfin⟩
  | sessionClosed =>
      obtain ⟨s', j', hrun, hget, hfin⟩ := finish_from_closed gate s i j hj hph
      exact ⟨_, s', j', hrun, hget, hfin⟩
  | pending => rw [hph, holdsSlot_pending] at hhold; cases hhold
  | cancelled => rw [hph, holdsSlot_cancelled] at hhold; cases hhold
  | waiting => rw [hph, holdsSlot_waiting] at hhold; cases hhold
  | finished => rw [hph, holdsSlot_finished] at hhold; cases hhold

/-! ## Claim C4: the cancellation checkpoint -/

/-- C4: (1) a pending job whose checkpoint observes the stop flag steps
directly to Cancelled; (2) in every execution a cancelled job has consumed
no gate slot and created no session; (3) if the stop flag is set before any
job has started, every reachable state has all jobs pending or cancelled
with zero slots and zero sessions — no job runs, no session is ever
created; (4) a job already holding a gate slot can always run to the
finished state through its own remaining steps, stop flag notwithstanding. -/
theorem cancellation_checkpoint_semantics (gate n : Nat) :
    (∀ (s : SchedState) (i : Nat) (j : SchedJob),
       s.cancelRequested = true → s.jobs[i]? = some j → j.phase = Phase.pending →
       step gate s (Act.checkStop i)
         = some { s with jobs := s.jobs.set i (⟨Phase.cancelled, j.slotsTaken, j.sessionsOpened⟩ : SchedJob) }) ∧
    (∀ (acts : List Act) (s : SchedState),
       runTrace gate (initSched n) acts = some s →
       ∀ j ∈ s.jobs, j.phase = Phase.cancelled →
         j.slotsTaken = 0 ∧ j.sessionsOpened = 0) ∧
    (∀ (acts : List Act) (s : SchedState),
       runTrace gate (initCancelled n) acts = some s →
       openSessionCount s = 0 ∧ activeCount s = 0 ∧
       ∀ j ∈ s.jobs, (j.phase = Phase.pending ∨ j.phase = Phase.cancelled) ∧
         j.slotsTaken = 0 ∧ j.sessionsOpened = 0) ∧
    (∀ (acts : List Act) (s : SchedState) (i : Nat) (j : SchedJob),
       runTrace gate (initSched n) acts = some s → s.jobs[i]? = some j →
       holdsSlot j.phase = true →
       ∃ (acts2 : List Act) (s2 : SchedState) (j2 : SchedJob),
         runTrace gate s acts2 = some s2 ∧ s2.jobs[i]? = some j2 ∧
           j2.phase = Phase.finished) := by
  refine ⟨?_, ?_, ?_, ?_⟩
  · intro s i j hcr hj hp
    simp only [step, hj]
    rw [if_pos hp]
    simp [hcr]
  · intro acts s hrun
    have hinit : CancInv (initSched n) := by
      intro j hm _
      have : j = initJob := List.eq_of_mem_replicate hm
      subst this
      exact ⟨rfl, rfl⟩
    have hinv : CancInv s :=
      runTrace_inv gate CancInv
        (fun st st' a hst hp => step_cancInv gate st st' a hst hp)
        acts (initSched n) s hrun hinit
    exact fun j hm hph => hinv j hm (Or.inr hph)
  · intro acts s hrun
    have hfi : FrozenInv (initCancelled n) := by
      refine ⟨rfl, ?_⟩
      intro j hm
      have : j = initJob := List.eq_of_mem_replicate hm
      subst this
      exact Or.inl rfl
    have hci : CancInv (initCancelled n) := by
      intro j hm _
      have : j = initJob := List.eq_of_mem_replicate hm
      subst this
      exact ⟨rfl, rfl⟩
    have hfrozen : FrozenInv s :=
      runTrace_inv gate FrozenInv
        (fun st st' a hst hp => step_frozenInv gate st st' a hst hp)
        acts (initCancelled n) s hrun hfi
    have hcanc : CancInv s :=
      runTrace_inv gate CancInv
        (fun st st' a hst hp => step_cancInv gate st st' a hst hp)
        acts (initCancelled n) s hrun hci
    refine ⟨?_, ?_, ?_⟩
    · refine List.countP_eq_zero.mpr ?_
      intro j hm
      rcases hfrozen.2 j hm with h | h <;>
        simp [sessionIsOpen, h]
    · refine List.countP_eq_zero.mpr ?_
      intro j hm
      rcases hfrozen.2 j hm with h | h <;>
        simp [h, holdsSlot_pending, holdsSlot_cancelled]
    · intro j hm
      exact ⟨hfrozen.2 j hm, hcanc j hm (hfrozen.2 j hm)⟩
  · intro acts s i j _ hj hhold
    exact finish_from_slot gate s i j hj hhold

/-- C4 witness: with the stop flag set before any job started (two pending
jobs), the initial state already has no open session and only
pending/cancelled jobs; and a job that holds the gate (acquired) runs to
finished. -/
theorem cancellation_checkpoint_semantics_witness :
    (openSessionCount (initCancelled 2) = 0 ∧ activeCount (initCancelled 2) = 0 ∧
      ∀ j ∈ (initCancelled 2).jobs,
        (j.phase = Phase.pending ∨ j.phase = Phase.cancelled) ∧
          j.slotsTaken = 0 ∧ j.sessionsOpened = 0) ∧
    (∃ (acts2 : List Act) (s2 : SchedState) (j2 : SchedJob),
       runTrace 1 ({ cancelRequested := false, jobs := [⟨Phase.acquired, 1, 0⟩] }) acts2
           = some s2 ∧
         s2.jobs[0]? = some j2 ∧ j2.phase = Phase.finished) :=
  ⟨(cancellation_checkpoint_semantics 1 2).2.2.1 [] (initCancelled 2) rfl,
   (cancellation_checkpoint_semantics 1 1).2.2.2
     [Act.checkStop 0, Act.acquireGate 0]
     ({ cancelRequested := false, jobs := [⟨Phase.acquired, 1, 0⟩] })
     0 (⟨Phase.acquired, 1, 0⟩ : SchedJob) (by decide) (by decide) (by decide)⟩

end Autologin
